import Mathlib

/- Verification development for the filelock repository: `singleton.py`
(classes `Lock`, `SingleInstance`) and `lockfile.py` (class `FileLock`,
whose `acquire`, `release` and `acquire_lockfile` bodies are textually
identical to `Lock`'s). Paths and file contents are modelled as
`List Char` / `String`; the CPython `posixpath` helpers (`normpath`,
`splitext`, `join`, `abspath`) that `lockfile_path` calls are modelled
from their CPython implementations; the OS advisory-lock state used by
`fcntl.lockf` is an explicit table from lock paths to holder pids. -/

namespace Filelock

/-- Single-character replacement: Python `str.replace(a, b)` for
one-character `a` and `b`, as used in `SingleInstance.lockfile_path`
for `"/" → "-"` and `"\\" → "-"`. -/
def replaceChar (a b : Char) (xs : List Char) : List Char :=
  xs.map (fun c => if c = a then b else c)

/-- Single-character deletion: Python `str.replace(a, "")`, as used in
`SingleInstance.lockfile_path` for `":" → ""`. -/
def removeChar (a : Char) (xs : List Char) : List Char :=
  xs.filter (fun c => c ≠ a)

/-- Python `path.split('/')`: components of a path, always at least one. -/
def splitOnChar (sep : Char) : List Char → List (List Char)
  | [] => [[]]
  | c :: cs =>
    match splitOnChar sep cs with
    | [] => [[]]
    | r :: rs => if c = sep then [] :: r :: rs else (c :: r) :: rs

/-- Python `'/'.join(comps)`. -/
def joinChar (sep : Char) : List (List Char) → List Char
  | [] => []
  | [x] => x
  | x :: y :: ys => x ++ sep :: joinChar sep (y :: ys)

/-- One step of the component loop of CPython `posixpath.normpath`;
`acc` is Python's `new_comps` kept in reverse order, so `comp :: acc`
is Python's `append` and `acc.tail` is Python's `pop`. -/
def normStep (hasRoot : Bool) (acc : List (List Char)) (comp : List Char) :
    List (List Char) :=
  if comp = [] ∨ comp = ['.'] then acc
  else if comp ≠ ['.', '.'] ∨ (hasRoot = false ∧ acc = []) ∨
      acc.head? = some ['.', '.'] then comp :: acc
  else acc.tail

/-- Number of leading slashes kept by CPython `posixpath.normpath`
(POSIX keeps exactly two leading slashes special). -/
def initialSlashes (xs : List Char) : Nat :=
  match xs with
  | '/' :: '/' :: '/' :: _ => 1
  | '/' :: '/' :: _ => 2
  | '/' :: _ => 1
  | _ => 0

/-- CPython `posixpath.normpath` on character lists. -/
def normpath (xs : List Char) : List Char :=
  if xs = [] then ['.']
  else
    let slashes := initialSlashes xs
    let comps := splitOnChar '/' xs
    let newComps := (comps.foldl (normStep (slashes ≠ 0)) []).reverse
    let joined := List.replicate slashes '/' ++ joinChar '/' newComps
    if joined = [] then ['.'] else joined

/-- Index of the last occurrence of `c` in `xs`, if any (Python
`str.rfind`, with `Option` instead of `-1`). -/
def rfindIdx (c : Char) (xs : List Char) : Option Nat :=
  match xs.reverse.findIdx? (fun x => x = c) with
  | none => none
  | some i => some (xs.length - 1 - i)

/-- CPython `genericpath._splitext` with `sep = '/'`, `extsep = '.'`, as
called by `os.path.splitext` on POSIX: split off the extension at the
last dot after the last slash, unless the basename up to that dot
consists only of dots. -/
def splitext (p : List Char) : List Char × List Char :=
  let sepIdx : Int := match rfindIdx '/' p with | none => -1 | some i => (i : Int)
  let dotIdx : Int := match rfindIdx '.' p with | none => -1 | some i => (i : Int)
  if sepIdx < dotIdx then
    let start := (sepIdx + 1).toNat
    let dotN := dotIdx.toNat
    if ((p.drop start).take (dotN - start)).any (fun c => c ≠ '.') then
      (p.take dotN, p.drop dotN)
    else (p, [])
  else (p, [])

/-- CPython `posixpath.join(cwd, p)` in the two-argument form used by
`abspath`. -/
def pathJoin (cwd p : List Char) : List Char :=
  match p with
  | '/' :: _ => p
  | _ =>
    if cwd = [] then p
    else if cwd.getLast? = some '/' then cwd ++ p
    else cwd ++ '/' :: p

/-- CPython `posixpath.abspath` relative to an explicit working
directory `cwd` (what `os.getcwd()` would return). -/
def abspath (cwd p : List Char) : List Char :=
  normpath (pathJoin cwd p)

/-- The character sanitization inside `SingleInstance.lockfile_path`:
`program_noext.replace("/", "-").replace(":", "").replace("\\", "-")`. -/
def sanitize (xs : List Char) : List Char :=
  replaceChar '\\' '-' (removeChar ':' (replaceChar '/' '-' xs))

/-- The basename built by `SingleInstance.lockfile_path`: the sanitized
absolute program path without extension, then `-flavor`, then `.lock`. -/
def lockBasename (cwd : List Char) (programPath flavor : String) : List Char :=
  sanitize (splitext (abspath cwd programPath.data)).1 ++
    '-' :: flavor.data ++ ".lock".data

/-- `SingleInstance.lockfile_path(flavor_id, program_path)`:
`os.path.normpath(tempfile.gettempdir() + '/' + basename)`. The
temporary directory (`tempfile.gettempdir()`) and the working directory
(used by `os.path.abspath`) are explicit parameters. -/
def lockfile_path (flavor programPath tempdir cwd : String) : String :=
  String.mk (normpath (tempdir.data ++ '/' :: lockBasename cwd.data programPath flavor))

example : lockfile_path "test-1" "/root/prog.py" "/tmp" "/" =
    "/tmp/-root-prog-test-1.lock" := by decide

example : lockfile_path "" "/a:b" "/tmp" "/" = "/tmp/-ab-.lock" := by decide

example : normpath "/tmp/a//b/./c/../d".data = "/tmp/a/b/d".data := by decide

example : splitext "/a/b.py".data = ("/a/b".data, ".py".data) := by decide

example : splitext "/a/.bashrc".data = ("/a/.bashrc".data, [])  := by decide

/-- Decimal digits of `n`, most significant first: Python `'%d' % n` for
nonnegative `n` (the value of `os.getpid()` is nonnegative). Structural
fuel recursion; `fuel = n + 1` always suffices since `n / 10 < n`. -/
def natToDecAux : Nat → Nat → List Char
  | 0, _ => []
  | fuel + 1, n =>
    if n < 10 then [Nat.digitChar n]
    else natToDecAux fuel (n / 10) ++ [Nat.digitChar (n % 10)]

/-- Python `'%d' % n` for nonnegative `n`. -/
def natToDec (n : Nat) : List Char := natToDecAux (n + 1) n

/-- Value of a decimal digit character. -/
def digVal (c : Char) : Nat := c.toNat - 48

/-- Accumulating decimal parse (left fold), the numeric core of Python
`int(...)` on an all-digit string. -/
def decVal (xs : List Char) : Nat :=
  xs.foldl (fun a c => 10 * a + digVal c) 0

/-- Parse of a nonempty all-digit character list; `none` models the
`ValueError` Python `int` raises otherwise. -/
def parseDec (xs : List Char) : Option Nat :=
  if xs ≠ [] ∧ xs.all Char.isDigit then some (decVal xs) else none

/-- Python `str.strip()`: remove leading and trailing whitespace. -/
def pyStrip (xs : List Char) : List Char :=
  ((xs.dropWhile Char.isWhitespace).reverse.dropWhile Char.isWhitespace).reverse

/-- Body of Python `int(s)` after stripping: an optional sign followed by
decimal digits; anything else raises `ValueError` (`none`). (The
underscore digit grouping accepted by Python ≥ 3.6 is not modelled; no
claim involves it.) -/
def pyIntCore (t : List Char) : Option Int :=
  match t with
  | [] => none
  | c :: rest =>
    if c = '+' then (parseDec rest).map (fun n => (n : Int))
    else if c = '-' then (parseDec rest).map (fun n => -(n : Int))
    else (parseDec (c :: rest)).map (fun n => (n : Int))

/-- Python `int(s)` on a string: strips surrounding whitespace, then an
optional sign and decimal digits. -/
def pyInt (xs : List Char) : Option Int := pyIntCore (pyStrip xs)

example : pyInt "123\n".data = some 123 := by decide
example : pyInt "-7\n".data = some (-7) := by decide
example : pyInt "abc\n".data = none := by decide
example : pyInt "\n".data = none := by decide
example : natToDec 907 = ['9', '0', '7'] := by decide

/-- Filesystem contents: path to file content, `none` when absent. -/
def FS : Type := String → Option String

/-- Pointwise update of a filesystem. -/
def fsUpd (fs : FS) (p : String) (v : Option String) : FS :=
  fun q => if q = p then v else fs q

/-- Content the holder writes into its lock file object:
`'%d\n' % os.getpid()`. -/
def pidContent (pid : Nat) : String := String.mk (natToDec pid ++ ['\n'])

/-- `SingleInstance.get_pid(program_path, flavor_id)` over an explicit
filesystem: resolves the lock file path, reads it if it exists, and
parses the content only if it ends with a newline; `Except.error ()`
is the `ValueError` that `int(c)` raises when the newline-terminated
content is not an integer literal, which `get_pid` does not catch. -/
def get_pid (programPath flavor tempdir cwd : String) (fs : FS) :
    Except Unit (Option Int) :=
  match fs (lockfile_path flavor programPath tempdir cwd) with
  | none => .ok none
  | some c =>
    if c.data.getLast? = some '\n' then
      match pyInt c.data with
      | some n => .ok (some n)
      | none => .error ()
    else .ok none

/-- Pointwise update of a path-indexed map. -/
def upd {β : Type} (f : String → β) (x : String) (v : β) : String → β :=
  fun q => if q = x then v else f q

/-- Pointwise update of a pid-indexed map. -/
def updN {β : Type} (f : Nat → β) (x : Nat) (v : β) : Nat → β :=
  fun q => if q = x then v else f q

/-- OS-level state shared by all processes: the `fcntl` record-lock
table (lock path to pid of the process holding the exclusive record
lock), file contents, and process liveness. Per POSIX `fcntl`
semantics, a table entry disappears on `LOCK_UN` and, by the kernel,
when the holding process dies. -/
structure OSSt where
  table : String → Option Nat
  files : String → Option String
  alive : Nat → Bool

/-- `Lock.acquire_lockfile(lockpath, block=False)`, POSIX branch
(`FileLock.acquire_lockfile` is identical); the caller is process
`pid`. `open(lockpath, 'w')` creates or truncates the file — advisory
record locks do not prevent that — and then
`fcntl.lockf(fobj, LOCK_EX | LOCK_NB)` succeeds iff no other process
holds the record lock (a process can re-take its own lock); on a
conflicting lock the raised `IOError` is caught and `None` is
returned. The returned file object is represented by the caller's
pid. -/
def acquire_lockfile (os : OSSt) (pid : Nat) (path : String) :
    OSSt × Option Nat :=
  let os1 : OSSt := { os with files := upd os.files path (some "") }
  match os1.table path with
  | none => ({ os1 with table := upd os1.table path (some pid) }, some pid)
  | some q => if q = pid then (os1, some pid) else (os1, none)

/-- Global system state: the OS state plus, for each pid, the lock path
its `Lock` object currently holds (`fobj` not `None`), if any. Each
process runs at most one `SingleInstance`, hence at most one `Lock`. -/
structure Sys where
  os : OSSt
  holding : Nat → Option String

/-- Kernel cleanup at process death: every record lock held by `pid`
disappears from the lock table. -/
def purgeTable (t : String → Option Nat) (pid : Nat) : String → Option Nat :=
  fun q => if t q = some pid then none else t q

theorem purgeTable_eq (t : String → Option Nat) (pid : Nat) (q : String) :
    purgeTable t pid q = if t q = some pid then none else t q := rfl

/-- Events: a process attempts `Lock.acquire(trylock=True)`, writes its
pid (`SingleInstance.__init__` success branch), runs `Lock.release`,
or dies (crash, `kill -9`, or normal exit — the kernel then drops its
record locks; its files stay on disk). -/
inductive Ev where
  | tryAcq (pid : Nat) (path : String)
  | writePid (pid : Nat)
  | rel (pid : Nat)
  | die (pid : Nat)

/-- One event of the interleaved multi-process execution. `tryAcq` runs
only for a live process whose `Lock` is not already holding (each
process creates one guard); `rel` follows `Lock.release`: early return
when not holding, otherwise `lockf(fobj, LOCK_UN)` then
`if os.path.isfile(lockfile): os.unlink(lockfile)`. -/
def step (s : Sys) : Ev → Sys
  | .tryAcq pid path =>
    if s.os.alive pid = true ∧ s.holding pid = none then
      { os := (acquire_lockfile s.os pid path).1,
        holding := updN s.holding pid
          (if (acquire_lockfile s.os pid path).2.isSome then some path else none) }
    else s
  | .writePid pid =>
    match s.holding pid with
    | some p =>
      if s.os.alive pid = true then
        { s with os := { s.os with files := upd s.os.files p (some (pidContent pid)) } }
      else s
    | none => s
  | .rel pid =>
    match s.holding pid with
    | some p =>
      if s.os.alive pid = true then
        let t1 := upd s.os.table p
          (if s.os.table p = some pid then none else s.os.table p)
        let f1 := if (s.os.files p).isSome then upd s.os.files p none
          else s.os.files
        { os := { table := t1, files := f1, alive := s.os.alive },
          holding := updN s.holding pid none }
      else s
    | none => s
  | .die pid =>
    { os := { table := purgeTable s.os.table pid,
              files := s.os.files,
              alive := updN s.os.alive pid false },
      holding := updN s.holding pid none }

/-- Initial system: no locks held, no lock files, all processes live. -/
def startSys : Sys :=
  { os := { table := fun _ => none, files := fun _ => none, alive := fun _ => true },
    holding := fun _ => none }

/-- Run of an event sequence from the initial system. -/
def run (evs : List Ev) : Sys := evs.foldl step startSys

/-- Mutual-exclusion invariant: the record-lock table and the
processes' `Lock` objects agree, and only live processes hold. -/
def Inv (s : Sys) : Prop :=
  (∀ p q, s.os.table p = some q → s.os.alive q = true ∧ s.holding q = some p) ∧
  (∀ q p, s.holding q = some p → s.os.alive q = true ∧ s.os.table p = some q)

theorem upd_same {β : Type} (f : String → β) (x : String) (v : β) :
    upd f x v x = v := by
  simp [upd]

theorem upd_ne {β : Type} (f : String → β) {q x : String} (v : β) (h : q ≠ x) :
    upd f x v q = f q := by
  simp [upd, h]

theorem updN_same {β : Type} (f : Nat → β) (x : Nat) (v : β) :
    updN f x v x = v := by
  simp [updN]

theorem updN_ne {β : Type} (f : Nat → β) {q x : Nat} (v : β) (h : q ≠ x) :
    updN f x v q = f q := by
  simp [updN, h]

/-- Result of `acquire_lockfile` when nobody holds the record lock. -/
theorem acquire_lockfile_free (os : OSSt) (pid : Nat) (path : String)
    (hT : os.table path = none) :
    acquire_lockfile os pid path =
      ({ table := upd os.table path (some pid),
         files := upd os.files path (some ""), alive := os.alive }, some pid) := by
  rcases os with ⟨t, f, a⟩
  simp only at hT
  simp [acquire_lockfile, hT]

/-- Result of `acquire_lockfile` when another process holds the lock. -/
theorem acquire_lockfile_held (os : OSSt) (pid q0 : Nat) (path : String)
    (hT : os.table path = some q0) (hq : q0 ≠ pid) :
    acquire_lockfile os pid path =
      ({ table := os.table, files := upd os.files path (some ""),
         alive := os.alive }, none) := by
  rcases os with ⟨t, f, a⟩
  simp only at hT
  simp [acquire_lockfile, hT, hq]

/-- Result of `acquire_lockfile` when the caller already holds the lock. -/
theorem acquire_lockfile_self (os : OSSt) (pid : Nat) (path : String)
    (hT : os.table path = some pid) :
    acquire_lockfile os pid path =
      ({ table := os.table, files := upd os.files path (some ""),
         alive := os.alive }, some pid) := by
  rcases os with ⟨t, f, a⟩
  simp only at hT
  simp [acquire_lockfile, hT]

/-- Introduction form of `Inv` against explicit components. -/
theorem inv_mk (t : String → Option Nat) (f : String → Option String)
    (a : Nat → Bool) (h : Nat → Option String)
    (d1 : ∀ p q, t p = some q → a q = true ∧ h q = some p)
    (d2 : ∀ q p, h q = some p → a q = true ∧ t p = some q) :
    Inv { os := { table := t, files := f, alive := a }, holding := h } :=
  ⟨d1, d2⟩

theorem inv_step (s : Sys) (e : Ev) (h : Inv s) : Inv (step s e) := by
  obtain ⟨h1, h2⟩ := h
  cases e with
  | tryAcq pid path =>
    by_cases hc : s.os.alive pid = true ∧ s.holding pid = none
    · simp only [step]
      rw [if_pos hc]
      rcases hT : s.os.table path with _ | q0
      · -- lock table empty at `path`: acquire succeeds
        rw [acquire_lockfile_free s.os pid path hT]
        refine inv_mk (upd s.os.table path (some pid)) _ s.os.alive
          (updN s.holding pid (some path)) ?_ ?_
        · intro p q hq
          by_cases hp : p = path
          · subst hp
            rw [upd_same] at hq
            obtain rfl : pid = q := by injection hq
            exact ⟨hc.1, by rw [updN_same]⟩
          · rw [upd_ne _ _ hp] at hq
            obtain ⟨ha, hh⟩ := h1 p q hq
            have hqpid : q ≠ pid := by
              intro hqq; subst hqq; rw [hc.2] at hh; exact Option.noConfusion hh
            exact ⟨ha, by rw [updN_ne _ _ hqpid]; exact hh⟩
        · intro q p hp
          by_cases hq : q = pid
          · subst hq
            rw [updN_same] at hp
            obtain rfl : path = p := by injection hp
            exact ⟨hc.1, by rw [upd_same]⟩
          · rw [updN_ne _ _ hq] at hp
            obtain ⟨ha, ht⟩ := h2 q p hp
            have hppath : p ≠ path := by
              intro hpp; subst hpp; rw [hT] at ht; exact Option.noConfusion ht
            exact ⟨ha, by rw [upd_ne _ _ hppath]; exact ht⟩
      · by_cases hq0 : q0 = pid
        · -- re-lock by the same process (cannot arise from `startSys`)
          subst hq0
          rw [acquire_lockfile_self s.os q0 path hT]
          refine inv_mk s.os.table _ s.os.alive
            (updN s.holding q0 (some path)) ?_ ?_
          · intro p q hq
            obtain ⟨ha, hh⟩ := h1 p q hq
            have hqpid : q ≠ q0 := by
              intro hqq; subst hqq; rw [hc.2] at hh; exact Option.noConfusion hh
            exact ⟨ha, by rw [updN_ne _ _ hqpid]; exact hh⟩
          · intro q p hp
            by_cases hq : q = q0
            · subst hq
              rw [updN_same] at hp
              obtain rfl : path = p := by injection hp
              exact ⟨hc.1, hT⟩
            · rw [updN_ne _ _ hq] at hp
              exact h2 q p hp
        · -- held by another process: acquire fails, only the file is truncated
          rw [acquire_lockfile_held s.os pid q0 path hT hq0]
          refine inv_mk s.os.table _ s.os.alive (updN s.holding pid none) ?_ ?_
          · intro p q hq
            obtain ⟨ha, hh⟩ := h1 p q hq
            have hqpid : q ≠ pid := by
              intro hqq; subst hqq; rw [hc.2] at hh; exact Option.noConfusion hh
            exact ⟨ha, by rw [updN_ne _ _ hqpid]; exact hh⟩
          · intro q p hp
            by_cases hq : q = pid
            · subst hq; rw [updN_same] at hp; exact Option.noConfusion hp
            · rw [updN_ne _ _ hq] at hp
              exact h2 q p hp
    · simp only [step]
      rw [if_neg hc]
      exact ⟨h1, h2⟩
  | writePid pid =>
    simp only [step]
    split
    · split
      · exact ⟨h1, h2⟩
      · exact ⟨h1, h2⟩
    · exact ⟨h1, h2⟩
  | rel pid =>
    simp only [step]
    split
    case h_2 => exact ⟨h1, h2⟩
    case h_1 p0 hh =>
      by_cases ha : s.os.alive pid = true
      · rw [if_pos ha]
        obtain ⟨_, htab⟩ := h2 pid p0 hh
        refine inv_mk
          (upd s.os.table p0 (if s.os.table p0 = some pid then none else s.os.table p0))
          _ s.os.alive (updN s.holding pid none) ?_ ?_
        · intro x q hq
          by_cases hx : x = p0
          · subst hx
            rw [upd_same, if_pos htab] at hq
            exact Option.noConfusion hq
          · rw [upd_ne _ _ hx] at hq
            obtain ⟨haq, hhq⟩ := h1 x q hq
            have hqpid : q ≠ pid := by
              intro hqq; subst hqq; rw [hh] at hhq
              obtain rfl : p0 = x := by injection hhq
              exact hx rfl
            exact ⟨haq, by rw [updN_ne _ _ hqpid]; exact hhq⟩
        · intro q x hx
          by_cases hq : q = pid
          · subst hq; rw [updN_same] at hx; exact Option.noConfusion hx
          · rw [updN_ne _ _ hq] at hx
            obtain ⟨haq, htq⟩ := h2 q x hx
            have hxp0 : x ≠ p0 := by
              intro hxx; subst hxx; rw [htab] at htq
              obtain rfl : pid = q := by injection htq
              exact hq rfl
            exact ⟨haq, by rw [upd_ne _ _ hxp0]; exact htq⟩
      · rw [if_neg ha]
        exact ⟨h1, h2⟩
  | die pid =>
    simp only [step]
    refine inv_mk (purgeTable s.os.table pid)
      s.os.files (updN s.os.alive pid false) (updN s.holding pid none) ?_ ?_
    · intro p q hq
      rw [purgeTable_eq] at hq
      by_cases ht : s.os.table p = some pid
      · rw [if_pos ht] at hq; exact Option.noConfusion hq
      · rw [if_neg ht] at hq
        obtain ⟨ha, hhq⟩ := h1 p q hq
        have hqpid : q ≠ pid := by
          intro hqq; subst hqq; exact ht hq
        exact ⟨by rw [updN_ne _ _ hqpid]; exact ha,
               by rw [updN_ne _ _ hqpid]; exact hhq⟩
    · intro q p hp
      by_cases hq : q = pid
      · subst hq; rw [updN_same] at hp; exact Option.noConfusion hp
      · rw [updN_ne _ _ hq] at hp
        obtain ⟨ha, ht⟩ := h2 q p hp
        have htp : ¬ s.os.table p = some pid := by
          rw [ht]; intro hcc; obtain rfl : q = pid := by injection hcc
          exact hq rfl
        exact ⟨by rw [updN_ne _ _ hq]; exact ha,
               by rw [purgeTable_eq, if_neg htp]; exact ht⟩

theorem inv_foldl (evs : List Ev) (s : Sys) (h : Inv s) :
    Inv (evs.foldl step s) := by
  induction evs generalizing s with
  | nil => exact h
  | cons e rest ih => exact ih (step s e) (inv_step s e h)

theorem inv_start : Inv startSys := by
  refine ⟨?_, ?_⟩
  · intro p q hq; exact Option.noConfusion hq
  · intro q p hp; exact Option.noConfusion hp

theorem inv_run (evs : List Ev) : Inv (run evs) :=
  inv_foldl evs startSys inv_start

/-- Helper shared by the mutual-exclusion and the duplicate-exit
theorems: if some live process holds the lock on `X`, a non-blocking
`acquire_lockfile` by any other process returns `None`. -/
theorem acquire_blocked (evs : List Ev) (A B : Nat) (X : String)
    (hA : (run evs).holding A = some X)
    (hB : B ≠ A) :
    (acquire_lockfile (run evs).os B X).2 = none := by
  obtain ⟨_, htab⟩ := (inv_run evs).2 A X hA
  rw [acquire_lockfile_held (run evs).os B A X htab (fun hab => hB hab.symm)]

/-- Exit-status outcome of `SingleInstance.__init__`. -/
inductive StartRes where
  | exit (code : Int)
  | ok
deriving DecidableEq

/-- `SingleInstance.__init__(flavor_id)` for process `pid` with the
resolved lock path `path`: build the `Lock`, `acquire(trylock=True)`;
if the result is `None`, log and `sys.exit(-1)`; otherwise write
`'%d\n' % os.getpid()` into the lock file object and flush. -/
def instanceNew (s : Sys) (pid : Nat) (path : String) : Sys × StartRes :=
  let r := acquire_lockfile s.os pid path
  match r.2 with
  | none => ({ s with os := r.1 }, .exit (-1))
  | some _ =>
    ({ os := { r.1 with files := upd r.1.files path (some (pidContent pid)) },
       holding := updN s.holding pid (some path) }, .ok)

/-- Truncation of a process exit status to the 8-bit range reported by
POSIX wait (`-1` becomes `255`). -/
def truncate8 (code : Int) : Int := code % 256

example : truncate8 (-1) = 255 := by decide

example : (run [Ev.tryAcq 1 "L"]).holding 1 = some "L" := by decide

example : (acquire_lockfile (run [Ev.tryAcq 1 "L"]).os 2 "L").2 = none := by decide

theorem digitChar_isDigit (n : Nat) (h : n < 10) :
    (Nat.digitChar n).isDigit = true := by
  interval_cases n <;> decide

theorem digitChar_val (n : Nat) (h : n < 10) : digVal (Nat.digitChar n) = n := by
  interval_cases n <;> decide

theorem natToDecAux_spec (fuel : Nat) : ∀ n, n < fuel →
    natToDecAux fuel n ≠ [] ∧ (∀ c ∈ natToDecAux fuel n, c.isDigit = true) ∧
      decVal (natToDecAux fuel n) = n := by
  induction fuel with
  | zero => intro n h; omega
  | succ fuel ih =>
    intro n h
    by_cases h10 : n < 10
    · refine ⟨by simp [natToDecAux, h10], ?_, ?_⟩
      · intro c hc
        simp only [natToDecAux, if_pos h10, List.mem_singleton] at hc
        subst hc
        exact digitChar_isDigit n h10
      · have hv := digitChar_val n h10
        simp [natToDecAux, h10, decVal, hv]
    · have hd : n / 10 < fuel := by
        have : n / 10 < n := Nat.div_lt_self (by omega) (by omega)
        omega
      obtain ⟨hne, hdig, hval⟩ := ih (n / 10) hd
      have heq : natToDecAux (fuel + 1) n =
          natToDecAux fuel (n / 10) ++ [Nat.digitChar (n % 10)] := by
        simp [natToDecAux, h10]
      refine ⟨by simp [heq], ?_, ?_⟩
      · intro c hc
        rw [heq] at hc
        rcases List.mem_append.mp hc with hm | hm
        · exact hdig c hm
        · rw [List.mem_singleton] at hm
          subst hm
          exact digitChar_isDigit _ (Nat.mod_lt _ (by omega))
      · rw [heq]
        unfold decVal
        rw [List.foldl_append]
        have hv : List.foldl (fun a c => 10 * a + digVal c) 0
            (natToDecAux fuel (n / 10)) = n / 10 := hval
        rw [hv]
        simp only [List.foldl]
        rw [digitChar_val (n % 10) (Nat.mod_lt _ (by omega))]
        omega

theorem natToDec_spec (n : Nat) :
    natToDec n ≠ [] ∧ (∀ c ∈ natToDec n, c.isDigit = true) ∧
      decVal (natToDec n) = n :=
  natToDecAux_spec (n + 1) n (Nat.lt_succ_self n)

theorem isDigit_not_ws (c : Char) (h : c.isDigit = true) :
    c.isWhitespace = false := by
  by_contra hw
  rw [Bool.not_eq_false] at hw
  simp only [Char.isWhitespace, Bool.or_eq_true, decide_eq_true_eq] at hw
  rcases hw with ((h1 | h1) | h1) | h1 <;> subst h1 <;>
    exact absurd h (by decide)

theorem pyStrip_digits_newline (xs : List Char) (hne : xs ≠ [])
    (hd : ∀ c ∈ xs, c.isDigit = true) :
    pyStrip (xs ++ ['\n']) = xs := by
  have hnotws : ∀ c ∈ xs, c.isWhitespace = false :=
    fun c hc => isDigit_not_ws c (hd c hc)
  unfold pyStrip
  have h1 : (xs ++ ['\n']).dropWhile Char.isWhitespace = xs ++ ['\n'] := by
    cases xs with
    | nil => exact absurd rfl hne
    | cons c t =>
      rw [List.cons_append, List.dropWhile_cons,
        hnotws c (List.mem_cons_self c t)]
      simp
  rw [h1, List.reverse_append]
  have h2 : (['\n'].reverse ++ xs.reverse).dropWhile Char.isWhitespace =
      xs.reverse.dropWhile Char.isWhitespace := by
    simp only [List.reverse_cons, List.reverse_nil, List.nil_append,
      List.singleton_append, List.dropWhile_cons]
    simp
  rw [h2]
  have h3 : xs.reverse.dropWhile Char.isWhitespace = xs.reverse := by
    cases hrev : xs.reverse with
    | nil => rfl
    | cons c t =>
      have hc : c ∈ xs := by
        have hm : c ∈ xs.reverse := by
          rw [hrev]; exact List.mem_cons_self c t
        exact List.mem_reverse.mp hm
      rw [List.dropWhile_cons, hnotws c hc]
      simp
  rw [h3, List.reverse_reverse]

theorem pyInt_roundtrip (n : Nat) :
    pyInt (natToDec n ++ ['\n']) = some (n : Int) := by
  obtain ⟨hne, hdig, hval⟩ := natToDec_spec n
  unfold pyInt
  rw [pyStrip_digits_newline _ hne hdig]
  rcases hx : natToDec n with _ | ⟨c, rest⟩
  · exact absurd hx hne
  · rw [hx] at hdig hval
    have hcdig : c.isDigit = true := hdig c (List.mem_cons_self c rest)
    have hplus : ¬ c = '+' := by
      intro h; subst h; exact absurd hcdig (by decide)
    have hminus : ¬ c = '-' := by
      intro h; subst h; exact absurd hcdig (by decide)
    have hall : (c :: rest).all Char.isDigit = true := by
      rw [List.all_eq_true]
      intro x hxm
      exact hdig x hxm
    simp only [pyIntCore, if_neg hplus, if_neg hminus, parseDec]
    rw [if_pos ⟨List.cons_ne_nil c rest, hall⟩]
    simp [hval]

/-- C1: for a given lock identity `X`, at most one process holds the
acquired advisory lock on it. In any reachable system state, when
process `A` has returned successfully from a non-blocking acquire for
`X` (its `Lock`'s file object is set) and has neither released nor
died, a non-blocking `acquire_lockfile` for `X` by any other process
`B` returns `None` (lock unavailable) rather than a file object —
enforced by the `fcntl` lock table, not by application state. -/
theorem c1_mutual_exclusion (evs : List Ev) (A B : Nat) (X : String)
    (hA : (run evs).holding A = some X)
    (halive : (run evs).os.alive A = true)
    (hB : B ≠ A) :
    (acquire_lockfile (run evs).os B X).2 = none :=
  acquire_blocked evs A B X hA hB

theorem c1_witness :
    (acquire_lockfile (run [Ev.tryAcq 1 "L"]).os 2 "L").2 = none :=
  c1_mutual_exclusion [Ev.tryAcq 1 "L"] 1 2 "L" (by decide) (by decide)
    (by decide)

/-- C4 (code evidence): a non-blocking acquire attempt that fails
because another live process holds the lock does NOT leave the recorded
pid unchanged. Process 1 acquires `"L"` and records its pid (`"1\n"`);
the failed `acquire_lockfile` by process 2 obtains no lock, yet its
`open(lockpath, 'w')` truncates the file holding the pid record to the
empty string. -/
theorem c4_failed_acquire_truncates :
    (run [Ev.tryAcq 1 "L", Ev.writePid 1]).os.files "L" = some (pidContent 1) ∧
    (run [Ev.tryAcq 1 "L", Ev.writePid 1, Ev.tryAcq 2 "L"]).holding 2 = none ∧
    (run [Ev.tryAcq 1 "L", Ev.writePid 1, Ev.tryAcq 2 "L"]).os.files "L" =
      some "" ∧
    pidContent 1 ≠ "" := by decide

/-- C7: when `SingleInstance.__init__`'s non-blocking acquire fails
because another live holder exists, the constructing process terminates
via `sys.exit(-1)` — a non-zero exit status, still non-zero after
8-bit truncation (255) — and does not continue past construction. -/
theorem c7_duplicate_exit (evs : List Ev) (A B : Nat) (X : String)
    (hA : (run evs).holding A = some X)
    (halive : (run evs).os.alive A = true)
    (hB : B ≠ A) :
    (instanceNew (run evs) B X).2 = .exit (-1) ∧ truncate8 (-1) ≠ 0 := by
  refine ⟨?_, by decide⟩
  have hacq := acquire_blocked evs A B X hA hB
  simp only [instanceNew, hacq]

theorem c7_witness :
    (instanceNew (run [Ev.tryAcq 1 "L"]) 2 "L").2 = StartRes.exit (-1) ∧
      truncate8 (-1) ≠ 0 :=
  c7_duplicate_exit [Ev.tryAcq 1 "L"] 1 2 "L" (by decide) (by decide)
    (by decide)

/-- PidFilePath as claim C2 words it: the lock file path with the
`.lock` extension replaced by `.pid`. Stated for comparison only; the
code never forms such a path. -/
def pidPathClaim (flavor programPath tempdir cwd : String) : String :=
  String.mk ((splitext (lockfile_path flavor programPath tempdir cwd).data).1 ++
    ".pid".data)

/-- C2 counterexample: for program path `/a/b` and empty flavor, the
claimed `.pid` sidecar path differs from the lock file path; after a
successful guard construction the pid record sits at the lock file
path while nothing exists at the `.pid` path; and `get_pid` returns
nothing when the pid is stored at the `.pid` path, because it reads the
`.lock` path. -/
theorem c2_counterexample :
    pidPathClaim "" "/a/b" "/tmp" "/" = "/tmp/-a-b-.pid" ∧
    lockfile_path "" "/a/b" "/tmp" "/" = "/tmp/-a-b-.lock" ∧
    ("/tmp/-a-b-.pid" : String) ≠ "/tmp/-a-b-.lock" ∧
    (instanceNew startSys 7 (lockfile_path "" "/a/b" "/tmp" "/")).1.os.files
      "/tmp/-a-b-.pid" = none ∧
    (instanceNew startSys 7 (lockfile_path "" "/a/b" "/tmp" "/")).1.os.files
      "/tmp/-a-b-.lock" = some (pidContent 7) ∧
    get_pid "/a/b" "" "/tmp" "/"
      (fun q => if q = "/tmp/-a-b-.pid" then some "7\n" else none) = .ok none := by
  refine ⟨by decide, by decide, by decide, by decide, by decide, ?_⟩
  rfl

/-- C2 (amended): the pid record is stored in the lock file itself, not
in a `.pid` sidecar: after a successful `SingleInstance` construction
for `(program_path, flavor)`, the holder's decimal pid followed by a
newline is stored at the lock file path, and `get_pid` for the same
`(program_path, flavor)` reads that lock file path, returning the
holder's pid. -/
theorem c2_amended (programPath flavor tempdir cwd : String) (s : Sys)
    (pid : Nat)
    (hOk : (instanceNew s pid
      (lockfile_path flavor programPath tempdir cwd)).2 = StartRes.ok) :
    get_pid programPath flavor tempdir cwd
      (instanceNew s pid
        (lockfile_path flavor programPath tempdir cwd)).1.os.files =
      .ok (some (pid : Int)) := by
  simp only [instanceNew] at hOk ⊢
  split at hOk
  · simp at hOk
  · rename_i fd heq
    simp [get_pid, upd_same, pidContent, List.getLast?_concat, pyInt_roundtrip]

theorem c2_witness :
    get_pid "/a/b" "" "/tmp" "/"
      (instanceNew startSys 5 (lockfile_path "" "/a/b" "/tmp" "/")).1.os.files =
      .ok (some 5) :=
  c2_amended "/a/b" "" "/tmp" "/" startSys 5 (by decide)

/-- C3 counterexample: content `"abc\n"` ends with the expected newline
terminator but is not a decimal number; `get_pid` then propagates the
parse error (`int("abc\n")` raises `ValueError`), instead of returning
"no recorded holder". -/
theorem c3_counterexample :
    lockfile_path "" "/a/b" "/tmp" "/" = "/tmp/-a-b-.lock" ∧
    get_pid "/a/b" "" "/tmp" "/"
      (fun q => if q = "/tmp/-a-b-.lock" then some "abc\n" else none) =
      .error () := by
  refine ⟨by decide, ?_⟩
  rfl

/-- C3 (amended): `get_pid` propagates an error if and only if the lock
file exists and its content ends with the newline terminator yet is not
an integer literal; when the file is absent or the content lacks the
terminator it returns "no recorded holder" without error. -/
theorem c3_amended (programPath flavor tempdir cwd : String) (fs : FS) :
    get_pid programPath flavor tempdir cwd fs = .error () ↔
      ∃ c, fs (lockfile_path flavor programPath tempdir cwd) = some c ∧
        c.data.getLast? = some '\n' ∧ pyInt c.data = none := by
  unfold get_pid
  rcases hf : fs (lockfile_path flavor programPath tempdir cwd) with _ | c
  · simp
  · by_cases hnl : c.data.getLast? = some '\n'
    · rcases hp : pyInt c.data with _ | n
      · simp [hnl, hp]
      · simp [hnl, hp]
    · simp [hnl]

theorem c3_witness :
    get_pid "/a/b" "" "/tmp" "/"
      (fun q => if q = "/tmp/-a-b-.lock" then some "zz\n" else none) =
      .error () :=
  (c3_amended "/a/b" "" "/tmp" "/" _).mpr ⟨"zz\n", by rfl, by decide, by decide⟩

theorem splitOnChar_no_sep (sep : Char) : ∀ b : List Char, sep ∉ b →
    splitOnChar sep b = [b] := by
  intro b
  induction b with
  | nil => intro _; rfl
  | cons c cs ih =>
    intro h
    have hc : ¬ c = sep := by
      intro hh
      exact h (by rw [hh]; exact List.mem_cons_self sep cs)
    have hcs : sep ∉ cs := fun hm => h (List.mem_cons_of_mem c hm)
    simp [splitOnChar, ih hcs, hc]

theorem splitOnChar_tmp (b : List Char) (hb : '/' ∉ b) :
    splitOnChar '/' ('/' :: 't' :: 'm' :: 'p' :: '/' :: b) =
      [[], ['t', 'm', 'p'], b] := by
  have h1 : splitOnChar '/' b = [b] := splitOnChar_no_sep '/' b hb
  simp [splitOnChar, h1]

/-- On a path of the shape `/tmp/<basename>` with a slash-free,
non-degenerate basename, `posixpath.normpath` is the identity. -/
theorem normpath_tmp (b : List Char) (hb : '/' ∉ b) (hne : b ≠ [])
    (hdot : b ≠ ['.']) (hdd : b ≠ ['.', '.']) :
    normpath ('/' :: 't' :: 'm' :: 'p' :: '/' :: b) =
      '/' :: 't' :: 'm' :: 'p' :: '/' :: b := by
  unfold normpath
  rw [if_neg (by simp)]
  rw [splitOnChar_tmp b hb]
  have hs : initialSlashes ('/' :: 't' :: 'm' :: 'p' :: '/' :: b) = 1 := rfl
  rw [hs]
  simp [normStep, joinChar, hne, hdot, hdd]

theorem replaceChar_slash_no_slash (xs : List Char) :
    '/' ∉ replaceChar '/' '-' xs := by
  intro h
  rw [replaceChar, List.mem_map] at h
  obtain ⟨c, _, hc⟩ := h
  by_cases h0 : c = '/'
  · rw [if_pos h0] at hc
    exact absurd hc (by decide)
  · rw [if_neg h0] at hc
    exact h0 hc

theorem sanitize_no_slash (xs : List Char) : '/' ∉ sanitize xs := by
  intro h
  rw [sanitize, replaceChar, List.mem_map] at h
  obtain ⟨c, hcmem, hc⟩ := h
  by_cases h0 : c = '\\'
  · rw [if_pos h0] at hc
    exact absurd hc (by decide)
  · rw [if_neg h0] at hc
    subst hc
    rw [removeChar, List.mem_filter] at hcmem
    exact replaceChar_slash_no_slash xs hcmem.1

theorem lockBasename_no_slash (cwd : List Char) (programPath flavor : String)
    (hf : '/' ∉ flavor.data) : '/' ∉ lockBasename cwd programPath flavor := by
  rw [lockBasename]
  intro h
  rcases List.mem_append.mp h with h | h
  · rcases List.mem_append.mp h with h | h
    · exact sanitize_no_slash _ h
    · rcases List.mem_cons.mp h with h | h
      · exact absurd h (by decide)
      · exact hf h
  · exact absurd h (by decide)

theorem lockBasename_getLast (cwd : List Char) (programPath flavor : String) :
    (lockBasename cwd programPath flavor).getLast? = some 'k' := by
  have h5 : ".lock".data = ['.', 'l', 'o', 'c'] ++ ['k'] := rfl
  rw [lockBasename, h5, ← List.append_assoc, List.getLast?_concat]

theorem lockBasename_facts (cwd : List Char) (programPath flavor : String) :
    lockBasename cwd programPath flavor ≠ [] ∧
    lockBasename cwd programPath flavor ≠ ['.'] ∧
    lockBasename cwd programPath flavor ≠ ['.', '.'] := by
  have h := lockBasename_getLast cwd programPath flavor
  refine ⟨?_, ?_, ?_⟩ <;> intro hco <;> rw [hco] at h <;>
    exact absurd h (by decide)

/-- For a slash-free flavor, the final `normpath` in `lockfile_path` is
the identity: the lock path is the plain join of the temp directory and
the basename. -/
theorem lockfile_path_tmp_join (flavor programPath cwd : String)
    (hf : '/' ∉ flavor.data) :
    lockfile_path flavor programPath "/tmp" cwd =
      String.mk ("/tmp".data ++ '/' :: lockBasename cwd.data programPath flavor) := by
  obtain ⟨hne, hdot, hdd⟩ := lockBasename_facts cwd.data programPath flavor
  have hbs := lockBasename_no_slash cwd.data programPath flavor hf
  rw [lockfile_path]
  congr 1
  exact normpath_tmp _ hbs hne hdot hdd

/-- LockFilePath as claim C5 words it: the temporary directory joined
with the absolute extension-less program path in which `/`, `\` and `:`
have ALL been replaced by `-`, followed by `-flavor` and `.lock`.
Stated for comparison with the code's `lockfile_path`. -/
def lockfile_pathClaim (flavor programPath tempdir cwd : String) : String :=
  String.mk (tempdir.data ++ '/' ::
    (replaceChar '\\' '-' (replaceChar ':' '-' (replaceChar '/' '-'
      (splitext (abspath cwd.data programPath.data)).1)) ++
      '-' :: flavor.data ++ ".lock".data))

/-- C5 counterexample: for program path `/a:b` the code REMOVES the
colon (basename `-ab-f.lock` under the temp dir) instead of replacing
it with a dash (basename `-a-b-f.lock`), so the claimed path differs
from the resolved one; moreover, for a flavor containing `//`, the
final `normpath` collapses the separators, so the result is not the
plain join either. -/
theorem c5_counterexample :
    lockfile_path "f" "/a:b" "/tmp" "/" = "/tmp/-ab-f.lock" ∧
    lockfile_pathClaim "f" "/a:b" "/tmp" "/" = "/tmp/-a-b-f.lock" ∧
    lockfile_path "f" "/a:b" "/tmp" "/" ≠
      lockfile_pathClaim "f" "/a:b" "/tmp" "/" ∧
    lockfile_path "x//y" "/p" "/tmp" "/" = lockfile_path "x/y" "/p" "/tmp" "/" ∧
    ("x//y" : String) ≠ "x/y" := by decide

/-- C5 (amended): for every program path and every flavor free of path
separators, the resolved lock file path equals the temporary directory
joined with the absolute extension-less program path in which `/` and
`\` are replaced by `-` and `:` is REMOVED, followed by `-flavor` and
the `.lock` suffix. -/
theorem c5_amended (flavor programPath cwd : String)
    (hf : '/' ∉ flavor.data) :
    lockfile_path flavor programPath "/tmp" cwd =
      String.mk ("/tmp".data ++ '/' ::
        (sanitize (splitext (abspath cwd.data programPath.data)).1 ++
          '-' :: flavor.data ++ ".lock".data)) :=
  lockfile_path_tmp_join flavor programPath cwd hf

theorem c5_witness :
    lockfile_path "f" "/a/b" "/tmp" "/" =
      String.mk ("/tmp".data ++ '/' ::
        (sanitize (splitext (abspath "/".data "/a/b".data)).1 ++
          '-' :: "f".data ++ ".lock".data)) :=
  c5_amended "f" "/a/b" "/" (by decide)

/-- C6 counterexample: identity resolution is not injective in the
program path — the distinct program paths `/ab` and `/a:b` resolve to
the same lock file path (the colon is deleted) — nor in the flavor:
the distinct flavors `u//v` and `u/v` resolve to the same path (the
final `normpath` collapses the doubled separator). -/
theorem c6_counterexample :
    lockfile_path "" "/ab" "/tmp" "/" = lockfile_path "" "/a:b" "/tmp" "/" ∧
    ("/ab" : String) ≠ "/a:b" ∧
    lockfile_path "u//v" "/p" "/tmp" "/" = lockfile_path "u/v" "/p" "/tmp" "/" ∧
    ("u//v" : String) ≠ "u/v" := by decide

/-- C6 (amended): identity resolution is injective in the flavor as
long as the flavors are free of path separators: for one program path,
two distinct such flavors yield distinct lock file paths. (Injectivity
in the program path fails, see the counterexample.) -/
theorem c6_amended (programPath cwd f1 f2 : String)
    (h1 : '/' ∉ f1.data) (h2 : '/' ∉ f2.data) (hne : f1 ≠ f2) :
    lockfile_path f1 programPath "/tmp" cwd ≠
      lockfile_path f2 programPath "/tmp" cwd := by
  intro heq
  rw [lockfile_path_tmp_join f1 programPath cwd h1,
      lockfile_path_tmp_join f2 programPath cwd h2] at heq
  apply hne
  injection heq with hl
  have hb := List.append_cancel_left hl
  injection hb with _ hb2
  rw [lockBasename, lockBasename] at hb2
  have hb3 := List.append_cancel_right hb2
  have hb4 := List.append_cancel_left hb3
  injection hb4 with _ hb5
  exact String.ext hb5

theorem c6_witness :
    lockfile_path "a" "/p" "/tmp" "/" ≠ lockfile_path "b" "/p" "/tmp" "/" :=
  c6_amended "/p" "/" "a" "b" (by decide) (by decide) (by decide)

/-- Outcome of a raw OS call (`open`, `os.open`, `os.unlink`): success
or an `OSError`/`IOError` carrying its `errno`. -/
inductive CallRes where
  | ok
  | fail (errno : Nat)
deriving DecidableEq

/-- POSIX branch of `acquire_lockfile` with the outcome of
`open(lockpath, 'w')` made explicit: an exception from `open` sits in
no `try` block and propagates (`Except.error errno`); `fcntl.lockf`
with `LOCK_EX | LOCK_NB` raises `IOError` exactly when another process
holds a conflicting lock (`held = true`), and that exception is caught
and turned into `None`. `Except.ok (some ())` is a returned file
object. -/
def acquirePosix (openRes : CallRes) (held : Bool) : Except Nat (Option Unit) :=
  match openRes with
  | .fail e => .error e
  | .ok => if held then .ok none else .ok (some ())

/-- Windows branch of `acquire_lockfile`: inside one `try`,
`os.unlink(lockpath)` (when the file exists) and then
`os.open(lockpath, O_CREAT | O_EXCL | O_RDWR)`; an `OSError` with
`errno == 13` (access denied due to the existing exclusive owner)
yields `None`, any other errno is re-raised. -/
def acquireWin (exists_ : Bool) (unlinkRes createRes : CallRes) :
    Except Nat (Option Unit) :=
  match (if exists_ then unlinkRes else .ok) with
  | .fail e => if e = 13 then .ok none else .error e
  | .ok =>
    match createRes with
    | .fail e => if e = 13 then .ok none else .error e
    | .ok => .ok (some ())

/-- C8: I/O failures unrelated to contention propagate during acquire,
distinct from the "lock unavailable" result. POSIX branch: a failing
`open` (permission denied, disk full, ...) propagates its errno and is
never reported as unavailable, and after a successful `open` the
unavailable result arises exactly when another live process holds the
lock. Windows branch: an `OSError` with errno other than 13 — whether
from the `os.unlink` of a leftover file or from the exclusive
`os.open` — propagates, and only errno 13, access denied due to the
existing exclusive owner, is reported as unavailable. -/
theorem c8_error_propagation :
    (∀ e held, acquirePosix (.fail e) held = .error e) ∧
    (∀ held, acquirePosix .ok held = .ok none ↔ held = true) ∧
    (∀ c e, e ≠ 13 → acquireWin true (.fail e) c = .error e) ∧
    (∀ u e, e ≠ 13 → acquireWin false u (.fail e) = .error e) ∧
    (∀ e, e ≠ 13 → acquireWin true .ok (.fail e) = .error e) ∧
    (∀ c, acquireWin true (.fail 13) c = .ok none) ∧
    (∀ u, acquireWin false u (.fail 13) = .ok none) ∧
    acquireWin true .ok (.fail 13) = .ok none := by
  refine ⟨?_, ?_, ?_, ?_, ?_, ?_, ?_, rfl⟩
  · intro e held
    rfl
  · intro held
    cases held <;> simp [acquirePosix]
  · intro c e he
    simp [acquireWin, he]
  · intro u e he
    simp [acquireWin, he]
  · intro e he
    simp [acquireWin, he]
  · intro c
    rfl
  · intro u
    rfl

theorem c8_witness :
    acquirePosix (.fail 28) false = .error 28 ∧
    acquirePosix .ok true = .ok none ∧
    acquireWin true (.fail 2) .ok = .error 2 ∧
    acquireWin true (.fail 13) .ok = .ok none :=
  ⟨c8_error_propagation.1 28 false,
   (c8_error_propagation.2.1 true).mpr rfl,
   c8_error_propagation.2.2.1 .ok 2 (by decide),
   c8_error_propagation.2.2.2.2.2.1 .ok⟩

/-- State of a `Lock` (equally `FileLock`) object: the `initialized`
flag and the file object `fobj`, represented by a numeric descriptor. -/
structure LockSt where
  inited : Bool
  fobj : Option Nat
deriving DecidableEq

/-- Exception the release path can raise: `os.unlink` on a missing
file (`FileNotFoundError`), possible in the win32 branch, which calls
`os.unlink` without an `isfile` guard. -/
inductive RelErr where
  | unlinkMissing
deriving DecidableEq

/-- `Lock.release` (textually identical to `FileLock.release`), acting
on the object state and the filesystem; `win` selects the
`sys.platform == 'win32'` branch. The early `return` makes it a no-op
when not holding (`initialized` false or `fobj` `None`). The POSIX
branch unlocks the record (`fcntl.lockf(fobj, LOCK_UN)`, an OS-table
effect outside this single-object model) and removes the file only
under the `os.path.isfile` guard; the win32 branch closes the handle
and calls `os.unlink` unguarded, which raises when the file is gone —
in that case the trailing state mutations are never reached. -/
def release (win : Bool) (path : String) (st : LockSt) (fs : FS) :
    Except RelErr (LockSt × FS) :=
  if st.inited = false ∨ st.fobj = none then .ok (st, fs)
  else if win then
    match fs path with
    | some _ => .ok (⟨false, none⟩, fsUpd fs path none)
    | none => .error .unlinkMissing
  else
    .ok (⟨false, none⟩, if (fs path).isSome then fsUpd fs path none else fs)

/-- C10: `release` is safe when not holding and idempotent: when the
lock is not currently held (never acquired, acquire returned `None`,
or already released) it is a no-op that returns the lock state and the
filesystem unchanged and raises nothing; and on either platform
branch, `release` composed with `release` has the same effect as a
single `release`. -/
theorem c10_release_idempotent :
    (∀ win path st fs, st.inited = false ∨ st.fobj = none →
      release win path st fs = .ok (st, fs)) ∧
    (∀ win path st fs,
      (release win path st fs).bind (fun r => release win path r.1 r.2) =
        release win path st fs) := by
  constructor
  · intro win path st fs h
    rw [release, if_pos h]
  · intro win path st fs
    by_cases h : st.inited = false ∨ st.fobj = none
    · have hno : release win path st fs = .ok (st, fs) := by
        rw [release, if_pos h]
      rw [hno]
      exact hno
    · cases win with
      | true =>
        rcases hf : fs path with _ | c
        · have heq : release true path st fs = .error .unlinkMissing := by
            rw [release, if_neg h]
            simp [hf]
          rw [heq]
          rfl
        · have heq : release true path st fs =
              .ok (⟨false, none⟩, fsUpd fs path none) := by
            rw [release, if_neg h]
            simp [hf]
          rw [heq]
          show release true path ⟨false, none⟩ (fsUpd fs path none) =
            .ok (⟨false, none⟩, fsUpd fs path none)
          rw [release, if_pos (Or.inl rfl)]
      | false =>
        have heq : release false path st fs =
            .ok (⟨false, none⟩,
              if (fs path).isSome then fsUpd fs path none else fs) := by
          rw [release, if_neg h]
          simp
        rw [heq]
        show release false path ⟨false, none⟩
            (if (fs path).isSome then fsUpd fs path none else fs) =
          .ok (⟨false, none⟩,
            if (fs path).isSome then fsUpd fs path none else fs)
        rw [release, if_pos (Or.inl rfl)]

theorem c10_witness :
    release true "L" ⟨false, none⟩ (fun _ => none) =
      .ok (⟨false, none⟩, fun _ => none) :=
  c10_release_idempotent.1 true "L" ⟨false, none⟩ (fun _ => none) (Or.inl rfl)

/-- What the destroying process does after `__del__` has run: it
either continues running, or it would have terminated with the given
exit status. -/
inductive DelRes where
  | continues
  | terminated (code : Int)
deriving DecidableEq

/-- Body of `SingleInstance.__del__` as plain code:
`try: self.lock.release()`; on any exception it logs a warning (the
Bool records that the failure was reported) and then calls
`sys.exit(-1)`, i.e. raises `SystemExit(-1)` — the `Option Int` is the
`SystemExit` code escaping the body, and on that path the state
mutations inside `release` were never reached. -/
def delBody (win : Bool) (path : String) (st : LockSt) (fs : FS) :
    (LockSt × FS) × Option Int × Bool :=
  match release win path st fs with
  | .ok r => (r, none, false)
  | .error _ => ((st, fs), some (-1), true)

/-- CPython runs `__del__` as a finalizer (on `del`, scope exit or
interpreter shutdown): any exception escaping it — `SystemExit`
included — is discarded by the unraisable-exception hook
(`PyErr_WriteUnraisable`, "Exception ignored in ..."), so the process
continues either way; only the logging side effect survives. -/
def runFinalizer (body : (LockSt × FS) × Option Int × Bool) :
    (LockSt × FS) × DelRes × Bool :=
  (body.1, DelRes.continues, body.2.2)

/-- Destruction of a `SingleInstance` guard: its `__del__` body run
under CPython's finalizer semantics. -/
def instanceDel (win : Bool) (path : String) (st : LockSt) (fs : FS) :
    (LockSt × FS) × DelRes × Bool :=
  runFinalizer (delBody win path st fs)

/-- C9: a failure while removing the lock file during normal guard
destruction is reported (logged) but never escalated into process
failure: for every error raised by the release path, `__del__` logs
the failure, and the `SystemExit(-1)` its handler raises is discarded
at the finalizer boundary, so the destroying process continues — it
does not terminate with a failure status because of the cleanup
error. -/
theorem c9_cleanup_not_fatal (win : Bool) (path : String) (st : LockSt)
    (fs : FS) (e : RelErr) (he : release win path st fs = .error e) :
    instanceDel win path st fs = ((st, fs), DelRes.continues, true) ∧
    ∀ code, (instanceDel win path st fs).2.1 ≠ DelRes.terminated code := by
  have hb : delBody win path st fs = ((st, fs), some (-1), true) := by
    rw [delBody, he]
  constructor
  · rw [instanceDel, hb]
    rfl
  · intro code
    rw [instanceDel, hb]
    intro hco
    exact DelRes.noConfusion hco

theorem c9_cleanup_witness :
    instanceDel true "L" ⟨true, some 3⟩ (fun _ => none) =
      ((⟨true, some 3⟩, fun _ => none), DelRes.continues, true) :=
  (c9_cleanup_not_fatal true "L" ⟨true, some 3⟩ (fun _ => none)
    RelErr.unlinkMissing rfl).1

end Filelock
